import Mathlib

/-!
Verification development for the Empathy Engine backend
(emotion-signal scoring pipeline, timeline peak detection, and the
conversation storage/aggregation layer).

The Python source is shallowly embedded: Python floats become rationals
(all constants in the source are exact decimals), Python dicts over the
fixed emotion-label set become ordered association lists from `String`
to the value type (preserving Python's insertion-order semantics for
iteration, `max`, and updates), and the single external generative-model
call is an oracle parameter (`Option String`; `none` models the call
raising, `some r` models it returning response text `r`).  Text is
modelled as `List Char` over the ASCII fragment that the lexical tables
and the regular expressions in the source use.
-/

namespace Empathy

/-- The fixed emotion-label list, in the source's order
(model_adapter.EMOTIONS; models.EmotionType has the same order). -/
def EMOTIONSstr : List String :=
  ["joy", "sadness", "anger", "fear", "surprise", "stress", "tension",
   "disgust", "anticipation", "neutral"]

/-- Keyword tables from model_adapter.EMOTION_KEYWORDS. -/
def EMOTION_KEYWORDS : List (String × List String) :=
  [("joy", ["happy", "excited", "wonderful", "amazing", "love", "fantastic",
            "excellent", "thrilled", "delighted", "glad", "joyful"]),
   ("sadness", ["sad", "depressed", "unhappy", "miserable", "heartbroken",
                "devastated", "lonely", "hurt", "crying", "low", "down", "blue"]),
   ("anger", ["angry", "mad", "furious", "irritated", "annoyed", "pissed",
              "hate", "ridiculous", "outrageous", "dislike", "frustrat"]),
   ("fear", ["scared", "afraid", "terrified", "anxious", "worried", "nervous",
             "frightened", "panic"]),
   ("surprise", ["surprised", "shocked", "amazed", "unexpected", "wow", "omg",
                 "incredible"]),
   ("disgust", ["disgusted", "gross", "sick", "revolting", "nasty", "eww",
                "yuck", "idiot", "stupid", "dumb", "moron"]),
   ("stress", ["stressed", "overwhelmed", "pressure", "tense", "exhausted",
               "burned out"]),
   ("tension", ["tension", "awkward", "uncomfortable", "uneasy"]),
   ("anticipation", ["looking forward", "can\x27t wait", "eager", "anticipating",
                     "hopeful", "expecting"])]

/-- Emoji tables from model_adapter.EMOTION_EMOJIS (every entry in the
source is a single code point, so membership of the emoji string in the
text is membership of its character). -/
def EMOTION_EMOJIS : List (String × List Char) :=
  [("joy", List.map Char.ofNat
      [0x1F60A, 0x1F603, 0x1F604, 0x1F601, 0x1F606,
       0x1F917, 0x1F970, 0x1F60D, 0x1F389, 0x2728]),
   ("sadness", List.map Char.ofNat
      [0x1F622, 0x1F62D, 0x1F614, 0x1F61E, 0x1F494, 0x1F63F]),
   ("anger", List.map Char.ofNat
      [0x1F621, 0x1F620, 0x1F92C, 0x1F624, 0x1F4A2]),
   ("fear", List.map Char.ofNat
      [0x1F631, 0x1F628, 0x1F630, 0x1F627, 0x1F626]),
   ("surprise", List.map Char.ofNat [0x1F632, 0x1F62E, 0x1F62F, 0x1F92F]),
   ("disgust", List.map Char.ofNat [0x1F922, 0x1F92E, 0x1F616, 0x1F623]),
   ("stress", List.map Char.ofNat [0x1F62B, 0x1F629, 0x1F613, 0x1F630]),
   ("anticipation", List.map Char.ofNat [0x1F929, 0x1F60D, 0x1F973])]

/-- Keyword priority order from _has_emotion_signal. -/
def emotionPriority : List String :=
  ["disgust", "anger", "sadness", "fear", "surprise", "joy", "stress",
   "tension", "anticipation"]

/-- Word characters of Python's regex `\b` / `\w` on the ASCII fragment. -/
def isWordChar (c : Char) : Bool := c.isAlphanum || c = '_'

/-- Python's `\s` class on the ASCII fragment. -/
def pyIsSpace (c : Char) : Bool :=
  c = ' ' || c = '\t' || c = '\n' || c = '\r' || c = '\x0b' || c = '\x0c'

/-- Python str.lower on the ASCII fragment. -/
def strLower (cs : List Char) : List Char := cs.map Char.toLower

/-- Wordness of an optional character (`none` stands for the position
just outside the string, which is non-word for `\b`). -/
def optWord (o : Option Char) : Bool :=
  match o with
  | none => false
  | some c => isWordChar c

/-- Python regex `\b` holds between two (optional) characters iff exactly
one of them is a word character. -/
def wordBoundary (p n : Option Char) : Bool := optWord p != optWord n

/-- Search for regex `\b` followed by literal `kw` inside `cs`, where
`prev` is the character just before `cs` (embeds
`re.search(r'\b' + re.escape(keyword), text_lower)`). -/
def sigSearch (kw : List Char) : Option Char → List Char → Bool
  | prev, [] => wordBoundary prev none && kw.isPrefixOf ([] : List Char)
  | prev, c :: rest =>
      (wordBoundary prev (some c) && kw.isPrefixOf (c :: rest))
        || sigSearch kw (some c) rest

/-- First emotion of the priority list one of whose keywords matches at a
word boundary in the lowered text (keyword stage of _has_emotion_signal). -/
def keywordSignal (lower : List Char) : Option String :=
  emotionPriority.findSome? fun e =>
    if ((EMOTION_KEYWORDS.lookup e).getD []).any
        (fun kw => sigSearch kw.toList none lower) then some e else none

/-- First emotion of the emoji table one of whose emojis occurs in the
raw text (emoji stage of _has_emotion_signal). -/
def emojiSignal (text : List Char) : Option String :=
  EMOTION_EMOJIS.findSome? fun p =>
    if p.2.any (fun e => text.contains e) then some p.1 else none

/-- True iff `cs` contains a run of at least `need` consecutive characters
satisfying `p`, given that `cur` such characters immediately precede. -/
def runSearch (p : Char → Bool) (need : Nat) : List Char → Nat → Bool
  | [], cur => need ≤ cur
  | c :: rest, cur =>
      need ≤ cur ||
        (if p c then runSearch p need rest (cur + 1)
         else runSearch p need rest 0)

/-- Emphasis stage of _has_emotion_signal: regexes `!!+`, `\?\?+`,
`[A-Z]{3,}` searched in the raw text. -/
def emphasisSignal (text : List Char) : Bool :=
  runSearch (fun c => c = '!') 2 text 0 ||
  runSearch (fun c => c = '?') 2 text 0 ||
  runSearch (fun c => 'A' ≤ c && c ≤ 'Z') 3 text 0

/-- model_adapter._has_emotion_signal. -/
def hasEmotionSignal (text : List Char) : Bool × String :=
  match keywordSignal (strLower text) with
  | some e => (true, e)
  | none =>
    match emojiSignal text with
    | some e => (true, e)
    | none =>
      if emphasisSignal text then (true, "emphasis_detected")
      else (false, "no_signal")

/-! ### Sarcasm patterns (classify_emotion STEP 3)

The four fixed sarcasm regexes are compiled by hand.  `\s+`/`\s*` before
a token that cannot start with a space, and `[.!]+` before `\s*$`, are
consumed greedily, which is equivalent to the regex's backtracking
search; `.*` is an existential scan over non-newline characters. -/

/-- Match a literal word, returning the rest of the input. -/
def litTok (w : List Char) (cs : List Char) : Option (List Char) :=
  if w.isPrefixOf cs then some (cs.drop w.length) else none

/-- `\s+`: at least one whitespace character, consumed greedily. -/
def spacesPlus (cs : List Char) : Option (List Char) :=
  match cs with
  | c :: rest => if pyIsSpace c then some (rest.dropWhile pyIsSpace) else none
  | [] => none

/-- `.*` followed by a predicate match: the continuation holds at some
position reachable without crossing a newline. -/
def dotStarThen (k : List Char → Bool) : List Char → Bool
  | [] => k []
  | c :: rest => k (c :: rest) || (!(c = '\n') && dotStarThen k rest)

/-- Try the given pattern matcher at every start position (re.search). -/
def searchAnywhere (m : List Char → Bool) : List Char → Bool
  | [] => m []
  | c :: rest => m (c :: rest) || searchAnywhere m rest

/-- Pattern `yeah\s+(right|sure|great|okay).*not`, anchored here. -/
def sarc1Here (cs : List Char) : Bool :=
  match litTok "yeah".toList cs with
  | none => false
  | some r1 =>
    match spacesPlus r1 with
    | none => false
    | some r2 =>
      match ["right", "sure", "great", "okay"].findSome?
          (fun w => litTok w.toList r2) with
      | none => false
      | some r3 => dotStarThen (fun r => "not".toList.isPrefixOf r) r3

/-- Pattern `oh\s+(great|wonderful|fantastic).*\.\.\.`, anchored here. -/
def sarc2Here (cs : List Char) : Bool :=
  match litTok "oh".toList cs with
  | none => false
  | some r1 =>
    match spacesPlus r1 with
    | none => false
    | some r2 =>
      match ["great", "wonderful", "fantastic"].findSome?
          (fun w => litTok w.toList r2) with
      | none => false
      | some r3 => dotStarThen (fun r => "...".toList.isPrefixOf r) r3

/-- Pattern `sure\s*[,.]?\s*whatever`, anchored here. -/
def sarc3Here (cs : List Char) : Bool :=
  match litTok "sure".toList cs with
  | none => false
  | some r1 =>
    let r2 := r1.dropWhile pyIsSpace
    let r3 := match r2 with
      | c :: rest => if c = ',' || c = '.' then rest else c :: rest
      | [] => []
    "whatever".toList.isPrefixOf (r3.dropWhile pyIsSpace)

/-- Pattern `fine\s*[.!]+\s*$`, anchored here (`$` matches at the end of
the text or just before a final newline, which after `\s*` amounts to
the remainder being empty). -/
def sarc4Here (cs : List Char) : Bool :=
  match litTok "fine".toList cs with
  | none => false
  | some r1 =>
    match r1.dropWhile pyIsSpace with
    | c :: rest =>
        (c = '.' || c = '!') &&
          ((rest.dropWhile (fun x => x = '.' || x = '!')).dropWhile
            pyIsSpace).isEmpty
    | [] => false

/-- The sarcasm check of classify_emotion STEP 3: any of the four
patterns found anywhere in the lowered text. -/
def sarcasmMatch (lower : List Char) : Bool :=
  searchAnywhere sarc1Here lower || searchAnywhere sarc2Here lower ||
  searchAnywhere sarc3Here lower || searchAnywhere sarc4Here lower

/-! ### Distributions as ordered association lists -/

/-- A Python dict from emotion-label strings to float probabilities,
with insertion order preserved. -/
abbrev Dist : Type := List (String × ℚ)

/-- Dict read (`d[k]`; total, defaulting to 0 — every read in the source
is of a key that is present). -/
def getD (d : Dist) (k : String) : ℚ := (d.lookup k).getD 0

/-- Dict write `d[k] = v` for a key already present (updates in place,
preserving insertion order, as Python does). -/
def setKey (d : Dist) (k : String) (v : ℚ) : Dist :=
  d.map fun p => if p.1 = k then (k, v) else p

/-- `sum(d.values())`. -/
def sumVals (d : Dist) : ℚ := (d.map Prod.snd).sum

/-- `max(...)` over pairs by value: keeps the first maximal element in
iteration order (replacement only on strictly greater). -/
def maxPair {β : Type} [LinearOrder β] (p : String × β) :
    List (String × β) → String × β
  | [] => p
  | q :: rest => maxPair (if q.2 > p.2 then q else p) rest

/-- `max(d, key=d.get)`: first key attaining the maximal value. -/
def argmaxKey (d : Dist) : String :=
  match d with
  | [] => ""
  | p :: rest => (maxPair p rest).1

/-- `{emotion: v for emotion in EMOTIONS}`. -/
def mkConstDist (v : ℚ) : Dist := EMOTIONSstr.map fun e => (e, v)

/-- `{k: v/total for k, v in d.items()}` with `total = sum(d.values())`. -/
def normalizeDist (d : Dist) : Dist :=
  let t := sumVals d
  d.map fun p => (p.1, p.2 / t)

/-- `{emotion: 1.0/len(EMOTIONS) for emotion in EMOTIONS}`. -/
def uniformDist : Dist := mkConstDist (1 / 10)

/-! ### _parse_emotion_response -/

/-- Python str.strip() on the ASCII fragment. -/
def pyStrip (cs : List Char) : List Char :=
  ((cs.dropWhile pyIsSpace).reverse.dropWhile pyIsSpace).reverse

/-- str.split(',') . -/
def splitOnComma : List Char → List (List Char)
  | [] => [[]]
  | c :: rest =>
    match splitOnComma rest with
    | [] => if c = ',' then [[], []] else [[c]]
    | h :: t => if c = ',' then [] :: h :: t else (c :: h) :: t

/-- str.split(':') . -/
def splitOnColon : List Char → List (List Char)
  | [] => [[]]
  | c :: rest =>
    match splitOnColon rest with
    | [] => if c = ':' then [[], []] else [[c]]
    | h :: t => if c = ':' then [] :: h :: t else (c :: h) :: t

/-- Value of a digit string. -/
def digitsToNat (ds : List Char) : Nat :=
  ds.foldl (fun n c => n * 10 + (c.toNat - 48)) 0

/-- Python float(s) on plain decimal literals: optional sign, digits with
an optional single decimal point ("3", "3.", ".5", "0.25").  Exotic float
syntax (exponents, inf, nan) is modelled as a parse failure; the
surrounding code treats any failure as an exception that discards the
whole parse. -/
def parseFloatQ (s : List Char) : Option ℚ :=
  let t := pyStrip s
  let sb : ℚ × List Char :=
    match t with
    | '-' :: r => (-1, r)
    | '+' :: r => (1, r)
    | r => (1, r)
  let ip := sb.2.takeWhile Char.isDigit
  let rest := sb.2.drop ip.length
  let mag : Option ℚ :=
    match rest with
    | [] => if ip.isEmpty then none else some (digitsToNat ip)
    | '.' :: frac =>
      if frac.all Char.isDigit then
        if ip.isEmpty && frac.isEmpty then none
        else some ((digitsToNat ip : ℚ) +
          (digitsToNat frac : ℚ) / (10 ^ frac.length))
      else none
    | _ => none
  mag.map fun m => sb.1 * m

/-- One iteration of the pair loop in _parse_emotion_response.  `none`
models an exception (a pair that does not split into exactly two parts,
or an unparsable value), which aborts the loop and is caught by the
surrounding try. -/
def parsePairStep (acc : Option Dist) (pair : List Char) : Option Dist :=
  match acc with
  | none => none
  | some d =>
    if pair.contains ':' then
      match splitOnColon pair with
      | [em, pr] =>
        match parseFloatQ pr with
        | none => none
        | some v =>
          let emo := String.mk (pyStrip em)
          if EMOTIONSstr.contains emo then
            some (setKey d emo (max 0 (min 1 v)))
          else some d
      | _ => none
    else some d

/-- model_adapter._parse_emotion_response. -/
def parseEmotionResponse (response_text : List Char) : Dist :=
  let base : Dist := EMOTIONSstr.map fun e => (e, 0)
  let pairs := splitOnComma (pyStrip (strLower response_text))
  match pairs.foldl parsePairStep (some base) with
  | none => uniformDist
  | some d =>
    let t := sumVals d
    if 0 < t then d.map (fun p => (p.1, p.2 / t)) else uniformDist

/-! ### classify_emotion -/

/-- `max([v for k, v in d.items() if k != "neutral"], default=0.0)`. -/
def maxNonNeutralVal (d : Dist) : ℚ :=
  match (d.filter fun p => p.1 ≠ "neutral").map Prod.snd with
  | [] => 0
  | v :: vs => vs.foldl max v

/-- Anti-neutral enforcement applied after parsing the classifier
response (classify_emotion STEP 4, lines 225-237). -/
def antiNeutralCorrection (d : Dist) : Dist :=
  if (0.5 : ℚ) < getD d "neutral" ∧ (0.30 : ℚ) ≤ maxNonNeutralVal d then
    let maxE := argmaxKey (d.filter fun p => p.1 ≠ "neutral")
    let d1 := setKey (setKey d maxE 0.6) "neutral" 0.2
    d1.map fun p =>
      if p.1 ≠ maxE ∧ p.1 ≠ "neutral" then (p.1, (0.2 : ℚ) / (10 - 2)) else p
  else d

/-- High-confidence keyword distribution before normalization
(classify_emotion STEP 2): base 0.02 everywhere, detected label 0.80,
neutral 0.01, then the secondary-emotion assignment. -/
def keywordBaseDist (signal_type : String) : Dist :=
  let d := setKey (setKey (mkConstDist 0.02) signal_type 0.80) "neutral" 0.01
  if signal_type = "disgust" then setKey d "anger" 0.12
  else if signal_type = "anger" then setKey d "disgust" 0.08
  else if signal_type = "sadness" then setKey d "fear" 0.05
  else d

/-- Normalized keyword-path distribution (classify_emotion STEP 2). -/
def keywordDist (signal_type : String) : Dist :=
  normalizeDist (keywordBaseDist signal_type)

/-- Fixed sarcasm distribution (classify_emotion STEP 3): base 0.05,
then anger 0.5, disgust 0.2, neutral 0.05 — returned without
renormalization. -/
def sarcasmDist : Dist :=
  setKey (setKey (setKey (mkConstDist 0.05) "anger" 0.5) "disgust" 0.2)
    "neutral" 0.05

/-- Final fallback (classify_emotion STEP 5). -/
def fallbackDist (text : List Char) : Dist :=
  if (pyStrip text).length < 10 ∧ ¬ text.contains '?' ∧ ¬ text.contains '!'
  then mkConstDist 0.1
  else
    [("joy", 0.10), ("sadness", 0.10), ("anger", 0.10), ("fear", 0.10),
     ("surprise", 0.10), ("stress", 0.08), ("tension", 0.08),
     ("disgust", 0.08), ("anticipation", 0.10), ("neutral", 0.16)]

/-- model_adapter.classify_emotion.  `chat_history` only enters the
prompt sent to the external model; `geminiResponse` is the oracle for
that model's reply (`none` = the call raised). -/
def classify_emotion (text : List Char)
    (_chat_history : List (String × String))
    (geminiResponse : Option String) : Dist :=
  let sig := hasEmotionSignal text
  if sig.1 = true ∧ EMOTIONSstr.contains sig.2 then keywordDist sig.2
  else if sarcasmMatch (strLower text) then sarcasmDist
  else
    match geminiResponse with
    | some r => antiNeutralCorrection (parseEmotionResponse (pyStrip r.toList))
    | none => fallbackDist text

/-! ### main.detect_peaks -/

/-- main.detect_peaks: interior strict local maxima above the threshold,
then the final index whenever its value exceeds the threshold. -/
def detect_peaks (values : List ℚ) (threshold : ℚ) : List Nat :=
  let interior := (List.range' 1 (values.length - 2)).filter fun i =>
    decide (threshold < values.getD i 0) &&
    decide (values.getD (i - 1) 0 < values.getD i 0) &&
    decide (values.getD (i + 1) 0 < values.getD i 0)
  interior ++
    (if 0 < values.length ∧ threshold < values.getD (values.length - 1) 0
     then [values.length - 1] else [])

/-! ### Storage layer (storage.ChatStorage), modelled per chat.

The `chats` dict, user index, JSON persistence and uuid/timestamp
generation are plumbing around one chat record; chat ids and timestamps
enter as parameters. -/

/-- One stored analyzed message (the dict built in add_message). -/
structure Message where
  id : Nat
  speaker : String
  text : String
  ts : String
  probs : Dist
  dominant : String
  entropy : ℚ
  confidence : String
deriving Repr, DecidableEq

/-- Chat metadata (the "metadata" dict; the duplicated "id" key always
equals chatId and is collapsed). -/
structure ChatMeta where
  chatId : String
  userId : String
  title : String
  createdAt : String
  lastUpdatedAt : String
  snippet : String
  dominant_emotion : String
  messageCount : Nat
deriving Repr, DecidableEq

/-- One chat session record. -/
structure Chat where
  metadata : ChatMeta
  messages : List Message
  emotionTimeline : List (String × List ℚ)
deriving Repr, DecidableEq

/-- Python str.split() (whitespace runs, empties dropped), accumulator
form. -/
def pySplitWsAux : List Char → List Char → List (List Char)
  | cur, [] => if cur.isEmpty then [] else [cur.reverse]
  | cur, c :: rest =>
    if pyIsSpace c then
      if cur.isEmpty then pySplitWsAux [] rest
      else cur.reverse :: pySplitWsAux [] rest
    else pySplitWsAux (c :: cur) rest

/-- Python str.split(). -/
def pySplitWs (cs : List Char) : List (List Char) := pySplitWsAux [] cs

/-- storage.ChatStorage._generate_title: first 5 words, "..." appended
when there are more. -/
def generateTitle (text : List Char) : String :=
  let words := pySplitWs text
  let title := String.mk (List.intercalate " ".toList (words.take 5))
  if words.length > 5 then title ++ "..." else title

/-- Python truthiness of an optional string. -/
def pyTruthy (o : Option String) : Bool :=
  match o with
  | none => false
  | some s => !s.isEmpty

/-- storage.ChatStorage.create_chat (chat id and timestamp are inputs;
registration in the per-user index is plumbing). -/
def createChat (chat_id user_id created_at : String)
    (initial_message : Option String) : Chat :=
  let im := initial_message.getD ""
  let snippet :=
    if pyTruthy initial_message ∧ im.length > 50 then
      String.mk (im.toList.take 50 ++ "...".toList)
    else if pyTruthy initial_message then im
    else "New chat"
  let title :=
    if pyTruthy initial_message then generateTitle im.toList else "New Chat"
  { metadata :=
      { chatId := chat_id, userId := user_id, title := title,
        createdAt := created_at, lastUpdatedAt := created_at,
        snippet := snippet, dominant_emotion := "neutral",
        messageCount := 0 },
    messages := [],
    emotionTimeline := EMOTIONSstr.map fun e => (e, []) }

/-- defaultdict(int) counting in first-insertion order
(_update_dominant_emotion's emotion_counts). -/
def countOcc (l : List String) : List (String × Nat) :=
  l.foldl
    (fun acc s =>
      if (acc.lookup s).isSome then
        acc.map fun p => if p.1 = s then (p.1, p.2 + 1) else p
      else acc ++ [(s, 1)])
    []

/-- storage.ChatStorage._update_dominant_emotion. -/
def updateDominantEmotion (chat : Chat) : Chat :=
  if chat.messages.isEmpty then chat
  else
    match countOcc (chat.messages.map Message.dominant) with
    | [] => chat
    | p :: rest =>
      { chat with metadata :=
          { chat.metadata with dominant_emotion := (maxPair p rest).1 } }

/-- The timeline update loop of add_message: append each probability to
its emotion's list. -/
def appendTimeline (tl : List (String × List ℚ)) (probs : Dist) :
    List (String × List ℚ) :=
  probs.foldl
    (fun t p => t.map fun q => if q.1 = p.1 then (q.1, q.2 ++ [p.2]) else q)
    tl

/-- storage.ChatStorage.add_message on one chat.  `none` models the
KeyError Python raises when a probs key is missing from the timeline
dict; on `some` the behaviour is exactly the source's. -/
def addMessage (chat : Chat) (speaker text : String) (probs : Dist)
    (dominant : String) (entropy : ℚ) (confidence : String)
    (now : String) : Option Chat :=
  if probs.all (fun p => (chat.emotionTimeline.lookup p.1).isSome) then
    let message_id := chat.messages.length + 1
    let msg : Message :=
      { id := message_id, speaker := speaker, text := text, ts := now,
        probs := probs, dominant := dominant, entropy := entropy,
        confidence := confidence }
    let messages := chat.messages ++ [msg]
    let chat1 : Chat :=
      { chat with
        messages := messages,
        metadata := { chat.metadata with
          lastUpdatedAt := now, messageCount := messages.length },
        emotionTimeline := appendTimeline chat.emotionTimeline probs }
    let chat2 := updateDominantEmotion chat1
    some
      (if speaker = "user" ∧ message_id = 1 then
        { chat2 with metadata := { chat2.metadata with
            snippet :=
              if text.length > 50 then
                String.mk (text.toList.take 50 ++ "...".toList)
              else text,
            title := generateTitle text.toList } }
      else chat2)
  else none

/-- The defaultdict(float) accumulation of get_emotion_summary, keys in
first-appearance order. -/
def accumSums (acc : Dist) (probs : Dist) : Dist :=
  probs.foldl
    (fun a p =>
      if (a.lookup p.1).isSome then
        a.map fun q => if q.1 = p.1 then (q.1, q.2 + p.2) else q
      else a ++ [(p.1, p.2)])
    acc

/-- Stable descending insertion (Python sorted(..., reverse=True) keeps
the original order of equal keys). -/
def insertDesc (p : String × ℚ) : Dist → Dist
  | [] => [p]
  | q :: rest => if p.2 ≥ q.2 then p :: q :: rest else q :: insertDesc p rest

/-- sorted(scores.items(), key=value, reverse=True), stable. -/
def sortedDesc (l : Dist) : Dist := l.foldr insertDesc []

/-- storage.ChatStorage._generate_summary_text. -/
def generateSummaryText (dominant : String) (scores : Dist)
    (confidence : ℚ) : String :=
  let top_emotions := (sortedDesc scores).take 2
  let secondary : Option String :=
    match top_emotions with
    | _ :: q :: _ => if q.2 > (0.1 : ℚ) then some q.1 else none
    | _ => none
  let base :=
    if confidence > (0.7 : ℚ) then
      "The conversation is strongly dominated by " ++ dominant
    else if confidence > (0.4 : ℚ) then
      "The conversation shows " ++ dominant
    else "The conversation has mixed emotions with some " ++ dominant
  let withSec :=
    match secondary with
    | some s => if !s.isEmpty ∧ s ≠ dominant then
        base ++ ", with occasional " ++ s else base
    | none => base
  withSec ++ "."

/-- round(x, 2) with round-half-to-even, modelled exactly on rationals. -/
def roundHalfEven (x : ℚ) : ℤ :=
  let f := Int.floor x
  let r := x - f
  if r < 1 / 2 then f
  else if 1 / 2 < r then f + 1
  else if f % 2 = 0 then f else f + 1

/-- round(x, 2). -/
def round2 (x : ℚ) : ℚ := (roundHalfEven (x * 100) : ℚ) / 100

/-- The emotion summary record returned by get_emotion_summary (the
duplicated "id" key is collapsed into chatId). -/
structure EmotionSummary where
  chatId : String
  dominant_emotion : String
  scores : Dist
  confidence : ℚ
  summary_text : Option String
  generatedAt : String
deriving Repr, DecidableEq

/-- storage.ChatStorage.get_emotion_summary on one (existing) chat. -/
def getEmotionSummary (chat : Chat) (include_summary_text : Bool)
    (now : String) : EmotionSummary :=
  if chat.messages.isEmpty then
    { chatId := chat.metadata.chatId, dominant_emotion := "neutral",
      scores := mkConstDist 0.1, confidence := 0,
      summary_text :=
        if include_summary_text then some "No messages yet." else none,
      generatedAt := now }
  else
    let total : ℚ := chat.messages.length
    let sums := chat.messages.foldl (fun a m => accumSums a m.probs) []
    let scores := sums.map fun p => (p.1, p.2 / total)
    let dominant := argmaxKey scores
    let avg_entropy := (chat.messages.map Message.entropy).sum / total
    let confidence := 1 - avg_entropy
    { chatId := chat.metadata.chatId, dominant_emotion := dominant,
      scores := scores, confidence := round2 confidence,
      summary_text :=
        if include_summary_text then
          some (generateSummaryText dominant scores confidence)
        else none,
      generatedAt := now }

/-! ### Spec-side definitions

These follow the specification's words, for comparison with the
definitions embedded from the source. -/

/-- Non-wordness of the character at a boundary position (outside the
text counts as non-word). -/
def boundaryOk (o : Option Char) : Bool := !optWord o

/-- Spec-side: the keyword occurs as a whole word — a word boundary on
BOTH sides ("substring match is insufficient"), with `prev` the
character just before the scanned text. -/
def wholeWordSearch (kw : List Char) : Option Char → List Char → Bool
  | _, [] => false
  | prev, c :: rest =>
    (boundaryOk prev && kw.isPrefixOf (c :: rest) &&
      boundaryOk ((c :: rest).drop kw.length).head?)
      || wholeWordSearch kw (some c) rest

/-- Spec-side (claim C4's words): the secondary-emotion boosts are ADDED
on top of the 0.02 base before renormalizing. -/
def specKeywordAddDist (L : String) : Dist :=
  let base := setKey (setKey (mkConstDist 0.02) L 0.80) "neutral" 0.01
  let boosted :=
    if L = "disgust" then setKey base "anger" (getD base "anger" + 0.12)
    else if L = "anger" then setKey base "disgust" (getD base "disgust" + 0.08)
    else if L = "sadness" then setKey base "fear" (getD base "fear" + 0.05)
    else base
  normalizeDist boosted

/-- Spec-side (claim C8's words): majority vote over dominant labels
with ties broken by the fixed priority order of the label set (earliest
label in the fixed enumeration among those of maximal count). -/
def specDominantPriority (doms : List String) : String :=
  match EMOTIONSstr.map (fun e => (e, doms.count e)) with
  | [] => ""
  | p :: rest => (maxPair p rest).1

/-- Closed form of the normalized keyword-path distribution with
replace-semantics boosts (the amended C4): value of label `k` when the
detected label is `L`. -/
def keywordClosedForm (L k : String) : ℚ :=
  let raw : ℚ :=
    if k = L then 0.80
    else if L = "disgust" ∧ k = "anger" then 0.12
    else if L = "anger" ∧ k = "disgust" then 0.08
    else if L = "sadness" ∧ k = "fear" then 0.05
    else if k = "neutral" then 0.01
    else 0.02
  let total : ℚ :=
    if L = "disgust" then 1.07
    else if L = "anger" then 1.03
    else if L = "sadness" then 1.00
    else 0.97
  raw / total

/-! ### Generic helper lemmas -/

/-- Updating a key leaves the ordered key list unchanged. -/
lemma keys_setKey (d : Dist) (k : String) (v : ℚ) :
    (setKey d k v).map Prod.fst = d.map Prod.fst := by
  induction d with
  | nil => rfl
  | cons p rest ih =>
    simp only [setKey, List.map_cons] at *
    by_cases h : p.1 = k
    · simp [h, ih]
    · simp [h, ih]

/-- Rewriting every value leaves the ordered key list unchanged. -/
lemma keys_mapSnd (d : Dist) (g : String × ℚ → ℚ) :
    (d.map fun p => (p.1, g p)).map Prod.fst = d.map Prod.fst := by
  induction d with
  | nil => rfl
  | cons p rest ih => simp [ih]

/-- Dividing every element of a list divides its sum. -/
lemma sum_div_list (l : List ℚ) (t : ℚ) :
    (l.map fun x => x / t).sum = l.sum / t := by
  induction l with
  | nil => simp
  | cons x xs ih => simp [ih, add_div]

/-- Normalization produces sum 1 whenever the original sum is nonzero. -/
lemma sumVals_normalize (d : Dist) (h : sumVals d ≠ 0) :
    sumVals (normalizeDist d) = 1 := by
  unfold normalizeDist sumVals at *
  simp only [List.map_map]
  have : (List.map (Prod.snd ∘ fun p : String × ℚ => (p.1, p.2 / (d.map Prod.snd).sum)) d)
      = (d.map Prod.snd).map (fun x => x / (d.map Prod.snd).sum) := by
    simp [List.map_map]
  rw [this, sum_div_list, div_self h]

/-- maxPair returns its initial pair or a member of the list. -/
lemma maxPair_eq_or_mem {β : Type} [LinearOrder β] (p : String × β)
    (l : List (String × β)) :
    maxPair p l = p ∨ maxPair p l ∈ l := by
  induction l generalizing p with
  | nil => left; rfl
  | cons q rest ih =>
    simp only [maxPair]
    rcases ih (if q.2 > p.2 then q else p) with h | h
    · rw [h]; split_ifs
      · right; exact List.mem_cons_self _ _
      · left; rfl
    · right; exact List.mem_cons_of_mem _ h

/-- The value of maxPair dominates the initial pair. -/
lemma le_maxPair_init {β : Type} [LinearOrder β] (p : String × β)
    (l : List (String × β)) :
    p.2 ≤ (maxPair p l).2 := by
  induction l generalizing p with
  | nil => exact le_refl _
  | cons q rest ih =>
    simp only [maxPair]
    refine le_trans ?_ (ih _)
    split_ifs with h
    · exact le_of_lt h
    · exact le_refl _

/-- The value of maxPair dominates every member of the list. -/
lemma le_maxPair_mem {β : Type} [LinearOrder β] (p : String × β)
    (l : List (String × β)) :
    ∀ q ∈ l, q.2 ≤ (maxPair p l).2 := by
  induction l generalizing p with
  | nil => simp
  | cons q rest ih =>
    intro r hr
    rcases List.mem_cons.mp hr with rfl | hr
    · simp only [maxPair]
      refine le_trans ?_ (le_maxPair_init _ _)
      split_ifs with h
      · exact le_refl _
      · exact le_of_not_lt h
    · exact ih _ r hr

/-- The value of maxPair is the left fold of max over the values. -/
lemma maxPair_snd_foldl {β : Type} [LinearOrder β] (p : String × β)
    (l : List (String × β)) :
    (maxPair p l).2 = l.foldl (fun a q => max a q.2) p.2 := by
  induction l generalizing p with
  | nil => rfl
  | cons q rest ih =>
    simp only [maxPair, List.foldl]
    rw [ih]
    congr 1
    split_ifs with h
    · exact (max_eq_right (le_of_lt h)).symm
    · exact (max_eq_left (le_of_not_lt h)).symm

lemma getD_nil (k : String) : getD [] k = 0 := rfl

/-- Evaluation rule for dict reads. -/
lemma getD_cons (a : String) (v : ℚ) (rest : Dist) (k : String) :
    getD ((a, v) :: rest) k = if k = a then v else getD rest k := by
  by_cases h : k = a
  · subst h; simp [getD, List.lookup]
  · simp [getD, List.lookup, beq_eq_false_iff_ne.mpr h, h]

/-- isPrefixOf in terms of an append decomposition. -/
lemma prefixOf_iff (l₁ l₂ : List Char) :
    l₁.isPrefixOf l₂ = true ↔ ∃ t, l₂ = l₁ ++ t := by
  induction l₁ generalizing l₂ with
  | nil => simp [List.isPrefixOf]
  | cons a l ih =>
    cases l₂ with
    | nil => simp [List.isPrefixOf]
    | cons b m =>
      simp only [List.isPrefixOf, Bool.and_eq_true, beq_iff_eq, ih,
        List.cons_append, List.cons.injEq]
      constructor
      · rintro ⟨rfl, t, rfl⟩
        exact ⟨t, rfl, rfl⟩
      · rintro ⟨t, rfl, rfl⟩
        exact ⟨rfl, t, rfl⟩

/-- The character just before the keyword occurrence: the last of `pre`,
or the character `prev` just before the scanned text when `pre` is
empty. -/
def lastOr (pre : List Char) (prev : Option Char) : Option Char :=
  pre.foldl (fun _ c => some c) prev

lemma lastOr_cons (x : Char) (l : List Char) (prev : Option Char) :
    lastOr (x :: l) prev = lastOr l (some x) := rfl

lemma lastOr_some (l : List Char) : ∀ x, lastOr l (some x) = (x :: l).getLast? := by
  induction l with
  | nil => intro x; rfl
  | cons y m ih =>
    intro x
    rw [lastOr_cons, ih y, List.getLast?_cons_cons]

lemma lastOr_none (pre : List Char) : lastOr pre none = pre.getLast? := by
  cases pre with
  | nil => rfl
  | cons x l => rw [lastOr_cons]; exact lastOr_some l x

/-- Soundness and completeness of the `\b`-anchored keyword search, for
keywords starting with a word character, relative to an arbitrary
preceding character. -/
lemma sigSearch_iff_gen (kw : List Char) (hkw : optWord kw.head? = true)
    (cs : List Char) : ∀ (prev : Option Char),
    sigSearch kw prev cs = true ↔
      ∃ pre post, cs = pre ++ kw ++ post ∧
        boundaryOk (lastOr pre prev) = true := by
  induction cs with
  | nil =>
    intro prev
    cases kw with
    | nil => simp [optWord] at hkw
    | cons a l =>
      constructor
      · intro h
        simp [sigSearch, List.isPrefixOf] at h
      · rintro ⟨pre, post, hsplit, -⟩
        exact absurd hsplit (by simp)
  | cons c rest ih =>
    intro prev
    cases kw with
    | nil => simp [optWord] at hkw
    | cons a l =>
      simp only [List.head?, optWord] at hkw
      simp only [sigSearch, Bool.or_eq_true, Bool.and_eq_true]
      constructor
      · rintro (⟨hb, hp⟩ | hrec)
        · obtain ⟨t, ht⟩ := (prefixOf_iff _ _).mp hp
          have hca : c = a := by
            have := ht
            simp only [List.cons_append, List.cons.injEq] at this
            exact this.1
          refine ⟨[], t, by simpa using ht, ?_⟩
          subst hca
          simp only [wordBoundary, optWord, hkw] at hb
          simpa [lastOr, boundaryOk] using hb
        · obtain ⟨pre, post, hsplit, hbd⟩ := (ih (some c)).mp hrec
          refine ⟨c :: pre, post, by simp [hsplit], ?_⟩
          rwa [lastOr_cons]
      · rintro ⟨pre, post, hsplit, hbd⟩
        cases pre with
        | nil =>
          left
          simp only [List.nil_append, List.cons_append, List.cons.injEq]
            at hsplit
          obtain ⟨rfl, hrest⟩ := hsplit
          constructor
          · simp only [lastOr, List.getLast?] at hbd
            simp only [wordBoundary, optWord, hkw]
            simpa [boundaryOk] using hbd
          · exact (prefixOf_iff _ _).mpr ⟨post, by simp [hrest]⟩
        | cons d pr =>
          right
          simp only [List.cons_append, List.cons.injEq] at hsplit
          obtain ⟨hc, hrest⟩ := hsplit
          rw [← hc] at hbd
          refine (ih (some c)).mpr ⟨pr, post, hrest, ?_⟩
          rwa [lastOr_cons] at hbd

/-- A distribution with the fixed ordered key set and the given values. -/
def mkDist10 (v0 v1 v2 v3 v4 v5 v6 v7 v8 v9 : ℚ) : Dist :=
  [("joy", v0), ("sadness", v1), ("anger", v2), ("fear", v3),
   ("surprise", v4), ("stress", v5), ("tension", v6), ("disgust", v7),
   ("anticipation", v8), ("neutral", v9)]

/-- The nine non-neutral labels, in the fixed order. -/
def nonNeutralLabels : List String :=
  ["joy", "sadness", "anger", "fear", "surprise", "stress", "tension",
   "disgust", "anticipation"]

/-- A distribution whose ordered key list is the fixed label list is a
mkDist10 of its ten values. -/
lemma keys_eq_expand (d : Dist) (h : d.map Prod.fst = EMOTIONSstr) :
    ∃ v0 v1 v2 v3 v4 v5 v6 v7 v8 v9,
      d = mkDist10 v0 v1 v2 v3 v4 v5 v6 v7 v8 v9 := by
  simp only [EMOTIONSstr] at h
  rcases d with _ | ⟨⟨k0, a0⟩, d⟩
  · simp at h
  rcases d with _ | ⟨⟨k1, a1⟩, d⟩
  · simp at h
  rcases d with _ | ⟨⟨k2, a2⟩, d⟩
  · simp at h
  rcases d with _ | ⟨⟨k3, a3⟩, d⟩
  · simp at h
  rcases d with _ | ⟨⟨k4, a4⟩, d⟩
  · simp at h
  rcases d with _ | ⟨⟨k5, a5⟩, d⟩
  · simp at h
  rcases d with _ | ⟨⟨k6, a6⟩, d⟩
  · simp at h
  rcases d with _ | ⟨⟨k7, a7⟩, d⟩
  · simp at h
  rcases d with _ | ⟨⟨k8, a8⟩, d⟩
  · simp at h
  rcases d with _ | ⟨⟨k9, a9⟩, d⟩
  · simp at h
  rcases d with _ | ⟨p, d⟩
  · simp only [List.map_cons, List.map_nil, List.cons.injEq, and_true] at h
    obtain ⟨rfl, rfl, rfl, rfl, rfl, rfl, rfl, rfl, rfl, rfl⟩ := h
    exact ⟨a0, a1, a2, a3, a4, a5, a6, a7, a8, a9, rfl⟩
  · simp at h

/-- The non-neutral restriction of a full distribution. -/
lemma filter_nonNeutral (v0 v1 v2 v3 v4 v5 v6 v7 v8 v9 : ℚ) :
    (mkDist10 v0 v1 v2 v3 v4 v5 v6 v7 v8 v9).filter
        (fun p => p.1 ≠ "neutral") =
      [("joy", v0), ("sadness", v1), ("anger", v2), ("fear", v3),
       ("surprise", v4), ("stress", v5), ("tension", v6), ("disgust", v7),
       ("anticipation", v8)] := by
  simp +decide [mkDist10, List.filter]

/-- The label the correction boosts is one of the nine non-neutral
labels. -/
lemma argmax_nonNeutral_mem (v0 v1 v2 v3 v4 v5 v6 v7 v8 v9 : ℚ) :
    argmaxKey ((mkDist10 v0 v1 v2 v3 v4 v5 v6 v7 v8 v9).filter
        (fun p => p.1 ≠ "neutral")) ∈ nonNeutralLabels := by
  rw [filter_nonNeutral]
  simp only [argmaxKey]
  rcases maxPair_eq_or_mem ("joy", v0)
      [("sadness", v1), ("anger", v2), ("fear", v3), ("surprise", v4),
       ("stress", v5), ("tension", v6), ("disgust", v7),
       ("anticipation", v8)] with h | h
  · rw [h]; simp [nonNeutralLabels]
  · simp only [List.mem_cons, List.not_mem_nil, or_false] at h
    rcases h with h | h | h | h | h | h | h | h <;> rw [h] <;>
      simp [nonNeutralLabels]

/-- The label the correction boosts carries the maximal non-neutral
value ("the previously maximal non-neutral label"). -/
lemma argmax_nonNeutral_val (v0 v1 v2 v3 v4 v5 v6 v7 v8 v9 : ℚ) :
    getD (mkDist10 v0 v1 v2 v3 v4 v5 v6 v7 v8 v9)
        (argmaxKey ((mkDist10 v0 v1 v2 v3 v4 v5 v6 v7 v8 v9).filter
          (fun p => p.1 ≠ "neutral"))) =
      maxNonNeutralVal (mkDist10 v0 v1 v2 v3 v4 v5 v6 v7 v8 v9) := by
  have hmv : maxNonNeutralVal (mkDist10 v0 v1 v2 v3 v4 v5 v6 v7 v8 v9) =
      (maxPair ("joy", v0)
        [("sadness", v1), ("anger", v2), ("fear", v3), ("surprise", v4),
         ("stress", v5), ("tension", v6), ("disgust", v7),
         ("anticipation", v8)]).2 := by
    unfold maxNonNeutralVal
    rw [filter_nonNeutral]
    simp only [List.map_cons, List.map_nil]
    rw [maxPair_snd_foldl]
    rfl
  rw [filter_nonNeutral, hmv]
  simp only [argmaxKey]
  rcases maxPair_eq_or_mem ("joy", v0)
      [("sadness", v1), ("anger", v2), ("fear", v3), ("surprise", v4),
       ("stress", v5), ("tension", v6), ("disgust", v7),
       ("anticipation", v8)] with h | h
  · rw [h]; norm_num [mkDist10, getD_cons, getD_nil]
  · simp only [List.mem_cons, List.not_mem_nil, or_false] at h
    rcases h with h | h | h | h | h | h | h | h <;> rw [h] <;>
      norm_num +decide [mkDist10, getD_cons, getD_nil]

/-- Pointwise value of the corrected distribution: the boosted label
gets 0.6, neutral 0.2, every other label 0.2/8 = 0.025; a distribution
failing either trigger condition is returned unchanged. -/
lemma correction_eval (v0 v1 v2 v3 v4 v5 v6 v7 v8 v9 : ℚ) :
    antiNeutralCorrection (mkDist10 v0 v1 v2 v3 v4 v5 v6 v7 v8 v9) =
      if (0.5 : ℚ) < v9 ∧
          (0.30 : ℚ) ≤ maxNonNeutralVal (mkDist10 v0 v1 v2 v3 v4 v5 v6 v7 v8 v9)
      then
        EMOTIONSstr.map fun k =>
          (k, if k = argmaxKey ((mkDist10 v0 v1 v2 v3 v4 v5 v6 v7 v8 v9).filter
                (fun p => p.1 ≠ "neutral"))
              then (0.6 : ℚ) else if k = "neutral" then 0.2 else 0.025)
      else mkDist10 v0 v1 v2 v3 v4 v5 v6 v7 v8 v9 := by
  have hneu : getD (mkDist10 v0 v1 v2 v3 v4 v5 v6 v7 v8 v9) "neutral" = v9 := by
    norm_num +decide [mkDist10, getD_cons, getD_nil]
  unfold antiNeutralCorrection
  rw [hneu]
  by_cases hc : (0.5 : ℚ) < v9 ∧
      (0.30 : ℚ) ≤ maxNonNeutralVal (mkDist10 v0 v1 v2 v3 v4 v5 v6 v7 v8 v9)
  · rw [if_pos hc, if_pos hc]
    have hmem := argmax_nonNeutral_mem v0 v1 v2 v3 v4 v5 v6 v7 v8 v9
    generalize hM : argmaxKey ((mkDist10 v0 v1 v2 v3 v4 v5 v6 v7 v8 v9).filter
        (fun p => p.1 ≠ "neutral")) = M at hmem ⊢
    fin_cases hmem <;>
      norm_num +decide [mkDist10, setKey, EMOTIONSstr, List.map_cons,
        List.map_nil]
  · rw [if_neg hc, if_neg hc]

/-- C6: whenever the parsed distribution has neutral above 0.5 and a
non-neutral maximum of at least 0.30, the correction sets the
previously maximal non-neutral label to 0.6, neutral to 0.2, and each
of the remaining 8 labels to 0.2/8 = 0.025; otherwise the distribution
is returned unchanged.  (Quantified over every value assignment to the
fixed 10-label key set.) -/
theorem anti_neutral_correction_spec (v0 v1 v2 v3 v4 v5 v6 v7 v8 v9 : ℚ) :
    argmaxKey ((mkDist10 v0 v1 v2 v3 v4 v5 v6 v7 v8 v9).filter
        (fun p => p.1 ≠ "neutral")) ∈ nonNeutralLabels ∧
    getD (mkDist10 v0 v1 v2 v3 v4 v5 v6 v7 v8 v9)
        (argmaxKey ((mkDist10 v0 v1 v2 v3 v4 v5 v6 v7 v8 v9).filter
          (fun p => p.1 ≠ "neutral"))) =
      maxNonNeutralVal (mkDist10 v0 v1 v2 v3 v4 v5 v6 v7 v8 v9) ∧
    antiNeutralCorrection (mkDist10 v0 v1 v2 v3 v4 v5 v6 v7 v8 v9) =
      (if (0.5 : ℚ) < getD (mkDist10 v0 v1 v2 v3 v4 v5 v6 v7 v8 v9) "neutral" ∧
          (0.30 : ℚ) ≤ maxNonNeutralVal (mkDist10 v0 v1 v2 v3 v4 v5 v6 v7 v8 v9)
      then
        EMOTIONSstr.map fun k =>
          (k, if k = argmaxKey ((mkDist10 v0 v1 v2 v3 v4 v5 v6 v7 v8 v9).filter
                (fun p => p.1 ≠ "neutral"))
              then (0.6 : ℚ) else if k = "neutral" then (0.2 : ℚ)
              else 0.2 / 8)
      else mkDist10 v0 v1 v2 v3 v4 v5 v6 v7 v8 v9) := by
  have hneu : getD (mkDist10 v0 v1 v2 v3 v4 v5 v6 v7 v8 v9) "neutral" = v9 := by
    norm_num +decide [mkDist10, getD_cons, getD_nil]
  refine ⟨argmax_nonNeutral_mem v0 v1 v2 v3 v4 v5 v6 v7 v8 v9,
    argmax_nonNeutral_val v0 v1 v2 v3 v4 v5 v6 v7 v8 v9, ?_⟩
  rw [correction_eval, hneu]
  norm_num

/-- A failed parse step never recovers. -/
lemma foldParse_none : ∀ pairs : List (List Char),
    pairs.foldl parsePairStep none = none := by
  intro pairs
  induction pairs with
  | nil => rfl
  | cons p rest ih =>
    simp only [List.foldl]
    rw [show parsePairStep none p = none from rfl]
    exact ih

/-- A successful parse step either aborts, keeps the accumulator, or
updates one key with a clamped (hence nonnegative) value. -/
lemma parsePairStep_cases (d : Dist) (pr : List Char) :
    parsePairStep (some d) pr = none ∨
    parsePairStep (some d) pr = some d ∨
    ∃ k v, 0 ≤ v ∧ parsePairStep (some d) pr = some (setKey d k v) := by
  unfold parsePairStep
  split_ifs with h1
  · rcases hsc : splitOnColon pr with _ | ⟨em, tail1⟩
    · exact Or.inl rfl
    rcases tail1 with _ | ⟨pv, tail2⟩
    · exact Or.inl rfl
    rcases tail2 with _ | ⟨z, tail3⟩
    · dsimp only
      rcases hpf : parseFloatQ pv with _ | v
      · exact Or.inl rfl
      · dsimp only
        split_ifs with h3
        · exact Or.inr (Or.inr ⟨_, _, le_max_left 0 _, rfl⟩)
        · exact Or.inr (Or.inl rfl)
    · exact Or.inl rfl
  · exact Or.inr (Or.inl rfl)

/-- setKey with a nonnegative value preserves valuewise nonnegativity. -/
lemma setKey_nonneg (d : Dist) (k : String) (v : ℚ) (hv : 0 ≤ v)
    (h : ∀ p ∈ d, 0 ≤ p.2) : ∀ p ∈ setKey d k v, 0 ≤ p.2 := by
  intro p hp
  obtain ⟨q, hq, rfl⟩ := List.mem_map.mp hp
  by_cases hqk : q.1 = k
  · simpa [hqk] using hv
  · simpa [hqk] using h q hq

/-- The parse loop preserves the ordered key list and nonnegativity of
all values. -/
lemma foldParse_keys_nonneg : ∀ (pairs : List (List Char)) (acc d : Dist),
    pairs.foldl parsePairStep (some acc) = some d →
    (∀ p ∈ acc, 0 ≤ p.2) →
    d.map Prod.fst = acc.map Prod.fst ∧ ∀ p ∈ d, 0 ≤ p.2 := by
  intro pairs
  induction pairs with
  | nil =>
    intro acc d h hnn
    injection h with h2
    subst h2
    exact ⟨rfl, hnn⟩
  | cons pr rest ih =>
    intro acc d h hnn
    simp only [List.foldl] at h
    rcases parsePairStep_cases acc pr with hs | hs | ⟨k, v, hv, hs⟩
    · rw [hs, foldParse_none] at h
      cases h
    · rw [hs] at h
      exact ih acc d h hnn
    · rw [hs] at h
      obtain ⟨hk, hn⟩ := ih _ d h (setKey_nonneg acc k v hv hnn)
      exact ⟨hk.trans (keys_setKey acc k v), hn⟩

/-- The parsed classifier response always covers exactly the fixed label
list and always sums to 1 (normalized or uniform). -/
lemma parse_keys_sum (r : List Char) :
    (parseEmotionResponse r).map Prod.fst = EMOTIONSstr ∧
    sumVals (parseEmotionResponse r) = 1 := by
  unfold parseEmotionResponse
  dsimp only
  rcases hf : (splitOnComma (pyStrip (strLower r))).foldl parsePairStep
      (some (EMOTIONSstr.map fun e => (e, (0 : ℚ)))) with _ | d
  · dsimp only
    constructor
    · simp [uniformDist, mkConstDist, List.map_map]
      rfl
    · norm_num [uniformDist, mkConstDist, EMOTIONSstr, sumVals]
  · dsimp only
    obtain ⟨hk, hnn⟩ := foldParse_keys_nonneg _ _ _ hf
      (by
        intro p hp
        obtain ⟨e, he, rfl⟩ := List.mem_map.mp hp
        exact le_refl 0)
    have hkeys : d.map Prod.fst = EMOTIONSstr := by
      rw [hk, List.map_map]
      rfl
    by_cases ht : 0 < sumVals d
    · rw [if_pos ht]
      constructor
      · rw [keys_mapSnd]
        exact hkeys
      · have hnrm : (d.map fun p => (p.1, p.2 / sumVals d)) = normalizeDist d :=
          rfl
        rw [hnrm]
        exact sumVals_normalize d (ne_of_gt ht)
    · rw [if_neg ht]
      constructor
      · simp [uniformDist, mkConstDist, List.map_map]
        rfl
      · norm_num [uniformDist, mkConstDist, EMOTIONSstr, sumVals]

/-- The final loop of the correction preserves the key list. -/
lemma keys_corrMap (d : Dist) (M : String) (x : ℚ) :
    (d.map fun p =>
      if p.1 ≠ M ∧ p.1 ≠ "neutral" then (p.1, x) else p).map Prod.fst =
      d.map Prod.fst := by
  induction d with
  | nil => rfl
  | cons p rest ih =>
    simp only [List.map_cons]
    rw [ih]
    congr 1
    split <;> rfl

/-- The anti-neutral correction preserves the key list. -/
lemma correction_keys (d : Dist) :
    (antiNeutralCorrection d).map Prod.fst = d.map Prod.fst := by
  unfold antiNeutralCorrection
  split
  · rw [keys_corrMap, keys_setKey, keys_setKey]
  · rfl

/-- The anti-neutral correction preserves a unit sum. -/
lemma correction_sum (d : Dist) (hk : d.map Prod.fst = EMOTIONSstr)
    (hs : sumVals d = 1) : sumVals (antiNeutralCorrection d) = 1 := by
  obtain ⟨v0, v1, v2, v3, v4, v5, v6, v7, v8, v9, rfl⟩ := keys_eq_expand d hk
  rw [correction_eval]
  split
  · have hmem := argmax_nonNeutral_mem v0 v1 v2 v3 v4 v5 v6 v7 v8 v9
    generalize hM : argmaxKey ((mkDist10 v0 v1 v2 v3 v4 v5 v6 v7 v8 v9).filter
        (fun p => p.1 ≠ "neutral")) = M at hmem ⊢
    fin_cases hmem <;>
      norm_num +decide [EMOTIONSstr, sumVals, List.map_cons, List.map_nil]
  · exact hs

/-- Evaluation rule for Nat-valued association-list lookups. -/
lemma lookupN_cons (a : String) (v : Nat) (rest : List (String × Nat))
    (k : String) :
    ((a, v) :: rest).lookup k = if k = a then some v else rest.lookup k := by
  by_cases h : k = a
  · subst h; simp [List.lookup]
  · simp [List.lookup, beq_eq_false_iff_ne.mpr h, h]

/-- lookup after the count-increment map of countOcc. -/
lemma lookup_incr (acc : List (String × Nat)) (s k : String) :
    (acc.map fun p => if p.1 = s then (p.1, p.2 + 1) else p).lookup k =
      if k = s then (acc.lookup k).map (· + 1) else acc.lookup k := by
  induction acc with
  | nil => simp
  | cons p rest ih =>
    rcases p with ⟨a, b⟩
    simp only [List.map_cons]
    by_cases has : a = s
    · subst has
      rw [if_pos rfl, lookupN_cons, lookupN_cons]
      by_cases hka : k = a
      · subst hka
        simp
      · simp [hka, ih]
    · rw [if_neg has, lookupN_cons, lookupN_cons]
      by_cases hka : k = a
      · subst hka
        simp [has]
      · simp [hka, ih]

/-- lookup past an appended fresh pair when the key misses the front. -/
lemma lookup_append_of_none (acc : List (String × Nat)) (s k : String)
    (n : Nat) (h : acc.lookup k = none) :
    (acc ++ [(s, n)]).lookup k = if k = s then some n else none := by
  induction acc with
  | nil =>
    rw [List.nil_append, lookupN_cons]
    simp
  | cons p rest ih =>
    rcases p with ⟨a, b⟩
    rw [lookupN_cons] at h
    by_cases hka : k = a
    · rw [if_pos hka] at h
      cases h
    · rw [if_neg hka] at h
      rw [List.cons_append, lookupN_cons, if_neg hka]
      exact ih h

/-- lookup past an appended pair when the key hits the front. -/
lemma lookup_append_of_some (acc : List (String × Nat)) (s k : String)
    (n v : Nat) (h : acc.lookup k = some v) :
    (acc ++ [(s, n)]).lookup k = some v := by
  induction acc with
  | nil => simp [List.lookup] at h
  | cons p rest ih =>
    rcases p with ⟨a, b⟩
    rw [lookupN_cons] at h
    by_cases hka : k = a
    · rw [if_pos hka] at h
      rw [List.cons_append, lookupN_cons, if_pos hka]
      exact h
    · rw [if_neg hka] at h
      rw [List.cons_append, lookupN_cons, if_neg hka]
      exact ih h

/-- Unfolding countOcc over a final element. -/
lemma countOcc_append (l : List String) (x : String) :
    countOcc (l ++ [x]) =
      if ((countOcc l).lookup x).isSome then
        (countOcc l).map fun p => if p.1 = x then (p.1, p.2 + 1) else p
      else countOcc l ++ [(x, 1)] := by
  unfold countOcc
  rw [List.foldl_append]
  rfl

/-- countOcc's lookup returns exactly the occurrence count of each
member. -/
lemma countOcc_lookup (l : List String) :
    ∀ k, (countOcc l).lookup k =
      if k ∈ l then some (l.count k) else none := by
  induction l using List.reverseRecOn with
  | nil => intro k; simp [countOcc]
  | append_singleton l x ih =>
    intro k
    rw [countOcc_append]
    by_cases hx : ((countOcc l).lookup x).isSome
    · rw [if_pos hx, lookup_incr]
      by_cases hkx : k = x
      · subst hkx
        by_cases hkl : k ∈ l
        · rw [ih k, if_pos hkl]
          simp [List.count_append, hkl]
        · rw [ih k, if_neg hkl] at hx
          simp at hx
      · rw [if_neg hkx, ih k]
        by_cases hkl : k ∈ l
        · rw [if_pos hkl, if_pos (List.mem_append_left _ hkl)]
          simp [List.count_append, List.count_singleton, hkx]
        · rw [if_neg hkl, if_neg ?side]
          case side =>
            simp only [List.mem_append, List.mem_singleton]
            rintro (h | h)
            · exact hkl h
            · exact hkx h
    · rw [if_neg hx]
      have hxl : x ∉ l := by
        intro hmem
        rw [ih x, if_pos hmem] at hx
        simp at hx
      have hnone : (countOcc l).lookup k = none ∨ k ∈ l := by
        by_cases hkl : k ∈ l
        · exact Or.inr hkl
        · rw [ih k, if_neg hkl]; exact Or.inl rfl
      by_cases hkx : k = x
      · subst hkx
        have h0 : (countOcc l).lookup k = none := by
          rw [ih k, if_neg hxl]
        rw [lookup_append_of_none _ _ _ _ h0, if_pos rfl,
          if_pos (List.mem_append_right _ (List.mem_singleton.mpr rfl))]
        simp [List.count_append, List.count_eq_zero_of_not_mem hxl]
      · by_cases hkl : k ∈ l
        · have hsome : (countOcc l).lookup k = some (l.count k) := by
            rw [ih k, if_pos hkl]
          rw [lookup_append_of_some _ _ _ _ _ hsome,
            if_pos (List.mem_append_left _ hkl)]
          simp [List.count_append, List.count_singleton, hkx]
        · have h0 : (countOcc l).lookup k = none := by
            rw [ih k, if_neg hkl]
          rw [lookup_append_of_none _ _ _ _ h0, if_neg hkx, if_neg ?side2]
          case side2 =>
            simp only [List.mem_append, List.mem_singleton]
            rintro (h | h)
            · exact hkl h
            · exact hkx h

/-- Every countOcc entry is a member of the list with its exact
occurrence count. -/
lemma countOcc_entries (l : List String) :
    ∀ q ∈ countOcc l, q.1 ∈ l ∧ q.2 = l.count q.1 := by
  induction l using List.reverseRecOn with
  | nil => intro q hq; simp [countOcc] at hq
  | append_singleton l x ih =>
    intro q hq
    rw [countOcc_append] at hq
    by_cases hx : ((countOcc l).lookup x).isSome
    · rw [if_pos hx] at hq
      obtain ⟨q0, hq0, rfl⟩ := List.mem_map.mp hq
      obtain ⟨hm, hc⟩ := ih q0 hq0
      by_cases hqx : q0.1 = x
      · rw [if_pos hqx]
        refine ⟨List.mem_append_left _ hm, ?_⟩
        simp only [hqx] at hc ⊢
        simp [List.count_append, hc]
      · rw [if_neg hqx]
        refine ⟨List.mem_append_left _ hm, ?_⟩
        simp [List.count_append, List.count_singleton, hqx, hc]
    · rw [if_neg hx] at hq
      have hxl : x ∉ l := by
        intro hmem
        rw [countOcc_lookup l x, if_pos hmem] at hx
        simp at hx
      rcases List.mem_append.mp hq with hq | hq
      · obtain ⟨hm, hc⟩ := ih q hq
        have hqx : q.1 ≠ x := fun he => hxl (he ▸ hm)
        refine ⟨List.mem_append_left _ hm, ?_⟩
        simp [List.count_append, List.count_singleton, hqx, hc]
      · rw [List.mem_singleton.mp hq]
        refine ⟨List.mem_append_right _ (List.mem_singleton.mpr rfl), ?_⟩
        simp [List.count_append, List.count_eq_zero_of_not_mem hxl]

/-- countOcc of a nonempty list is nonempty. -/
lemma countOcc_ne_nil (l : List String) (h : l ≠ []) : countOcc l ≠ [] := by
  obtain ⟨a, t, rfl⟩ := List.exists_cons_of_ne_nil h
  intro hco
  have hl := countOcc_lookup (a :: t) a
  rw [hco] at hl
  simp at hl

/-- A successful lookup yields a member pair. -/
lemma lookup_mem {l : List (String × Nat)} {k : String} {v : Nat}
    (h : l.lookup k = some v) : (k, v) ∈ l := by
  induction l with
  | nil => simp [List.lookup] at h
  | cons p rest ih =>
    by_cases hkp : k = p.1
    · rcases p with ⟨a, b⟩
      subst hkp
      simp only [List.lookup, beq_self_eq_true] at h
      obtain rfl : b = v := by simpa using h
      exact List.mem_cons_self _ _
    · simp only [List.lookup, beq_eq_false_iff_ne.mpr hkp] at h
      exact List.mem_cons_of_mem _ (ih h)

/-- The first maximal countOcc entry is a member of the list whose
count dominates every label's count. -/
lemma countOcc_max_spec (doms : List String) (p : String × Nat)
    (rest : List (String × Nat)) (h : countOcc doms = p :: rest) :
    (maxPair p rest).1 ∈ doms ∧
    ∀ e, doms.count e ≤ doms.count (maxPair p rest).1 := by
  have hmem : maxPair p rest ∈ countOcc doms := by
    rw [h]
    rcases maxPair_eq_or_mem p rest with h2 | h2
    · rw [h2]; exact List.mem_cons_self _ _
    · exact List.mem_cons_of_mem _ h2
  obtain ⟨hm, hc⟩ := countOcc_entries doms _ hmem
  refine ⟨hm, ?_⟩
  intro e
  by_cases he : e ∈ doms
  · have hlk : (countOcc doms).lookup e = some (doms.count e) := by
      rw [countOcc_lookup doms e, if_pos he]
    have hememb := lookup_mem hlk
    rw [h] at hememb
    rcases List.mem_cons.mp hememb with heq | hememb
    · have h1 : doms.count e = p.2 := by rw [← heq]
      rw [h1, ← hc]
      exact le_maxPair_init p rest
    · have := le_maxPair_mem p rest _ hememb
      rw [← hc]
      exact this
  · rw [List.count_eq_zero_of_not_mem he]
    exact Nat.zero_le _

/-- updateDominantEmotion only touches the dominant-emotion field. -/
lemma update_dominant_messages (chat : Chat) :
    (updateDominantEmotion chat).messages = chat.messages := by
  unfold updateDominantEmotion
  split
  · rfl
  · split <;> rfl

/-- After recomputation, the dominant-emotion field is a member of the
dominant labels with maximal occurrence count. -/
lemma dominant_after_update (chat1 : Chat) (hne : chat1.messages ≠ []) :
    (updateDominantEmotion chat1).metadata.dominant_emotion ∈
      chat1.messages.map Message.dominant ∧
    ∀ e, (chat1.messages.map Message.dominant).count e ≤
      (chat1.messages.map Message.dominant).count
        (updateDominantEmotion chat1).metadata.dominant_emotion := by
  unfold updateDominantEmotion
  rw [if_neg (by simpa [List.isEmpty_iff] using hne)]
  rcases hco : countOcc (chat1.messages.map Message.dominant)
    with _ | ⟨p, rest⟩
  · exact absurd hco (countOcc_ne_nil _ (by simpa using hne))
  · dsimp only
    exact countOcc_max_spec _ p rest hco

/-- The timeline and message count are unchanged by the dominant-emotion
recomputation. -/
lemma update_dominant_timeline (chat : Chat) :
    (updateDominantEmotion chat).emotionTimeline = chat.emotionTimeline := by
  unfold updateDominantEmotion
  split
  · rfl
  · split <;> rfl

lemma update_dominant_count (chat : Chat) :
    (updateDominantEmotion chat).metadata.messageCount =
      chat.metadata.messageCount := by
  unfold updateDominantEmotion
  split
  · rfl
  · split <;> rfl

/-- One timeline-append step keeps the ordered key list. -/
lemma keys_updTl (tl : List (String × List ℚ)) (k : String) (v : ℚ) :
    (tl.map fun q => if q.1 = k then (q.1, q.2 ++ [v]) else q).map Prod.fst =
      tl.map Prod.fst := by
  induction tl with
  | nil => rfl
  | cons q rest ih =>
    simp only [List.map_cons]
    rw [ih]
    congr 1
    split <;> rfl

/-- The timeline keys are unchanged by the per-message append loop. -/
lemma appendTimeline_keys : ∀ (probs : Dist) (tl : List (String × List ℚ)),
    (appendTimeline tl probs).map Prod.fst = tl.map Prod.fst := by
  intro probs
  induction probs with
  | nil => intro tl; rfl
  | cons p rest ih =>
    intro tl
    rw [show appendTimeline tl (p :: rest) =
        appendTimeline (tl.map fun q =>
          if q.1 = p.1 then (q.1, q.2 ++ [p.2]) else q) rest from rfl]
    rw [ih, keys_updTl]

/-- Each entry of the appended timeline descends from an entry of the
original, grown by the occurrence count of its key in the probs keys. -/
lemma appendTimeline_entry : ∀ (probs : Dist) (tl : List (String × List ℚ))
    (q : String × List ℚ), q ∈ appendTimeline tl probs →
    ∃ q0 ∈ tl, q.1 = q0.1 ∧
      q.2.length = q0.2.length + (probs.map Prod.fst).count q0.1 := by
  intro probs
  induction probs with
  | nil =>
    intro tl q h
    exact ⟨q, h, rfl, by simp⟩
  | cons p rest ih =>
    intro tl q h
    obtain ⟨q1, hq1, hkey, hlen⟩ := ih _ q h
    obtain ⟨q0, hq0, rfl⟩ := List.mem_map.mp hq1
    by_cases hk : q0.1 = p.1
    · refine ⟨q0, hq0, ?_, ?_⟩
      · rw [hkey]
        simp [hk]
      · rw [hlen]
        simp only [List.map_cons, List.count_cons, if_pos hk]
        simp [hk]
        omega
    · refine ⟨q0, hq0, ?_, ?_⟩
      · rw [hkey]
        simp [hk]
      · rw [hlen]
        simp only [List.map_cons, List.count_cons]
        simp [hk]
        exact fun hh => hk hh.symm

/-- The C10 invariant: the timeline has exactly the 10 label keys, every
per-label list has one entry per stored message, and the messageCount
field equals the number of stored messages. -/
def timelineOK (chat : Chat) : Prop :=
  chat.emotionTimeline.map Prod.fst = EMOTIONSstr ∧
  (∀ p ∈ chat.emotionTimeline, p.2.length = chat.messages.length) ∧
  chat.metadata.messageCount = chat.messages.length

/-! ### Claim theorems -/

/-- C7: detect_peaks returns exactly the interior indices i
(1 ≤ i ≤ n-2) above the threshold that strictly exceed both neighbors,
followed by the last index whenever its value exceeds the threshold even
if it is not a strict local maximum; and
detect_peaks [0.1, 0.9, 0.2, 0.3, 0.8] 0.7 = [1, 4]. -/
theorem detect_peaks_characterization :
    (∀ (v : List ℚ) (t : ℚ) (i : Nat),
      i ∈ detect_peaks v t ↔
        ((1 ≤ i ∧ i + 1 < v.length ∧ t < v.getD i 0 ∧
            v.getD (i - 1) 0 < v.getD i 0 ∧ v.getD (i + 1) 0 < v.getD i 0) ∨
          (v ≠ [] ∧ i = v.length - 1 ∧ t < v.getD (v.length - 1) 0))) ∧
    detect_peaks [0.1, 0.9, 0.2, 0.3, 0.8] 0.7 = [1, 4] := by
  constructor
  · intro v t i
    unfold detect_peaks
    simp only [List.mem_append, List.mem_filter, List.mem_range'_1,
      Bool.and_eq_true, decide_eq_true_eq]
    constructor
    · rintro (⟨⟨h1, h2⟩, ⟨h3, h4⟩, h5⟩ | h)
      · exact Or.inl ⟨h1, by omega, h3, h4, h5⟩
      · by_cases hc : 0 < v.length ∧ t < v.getD (v.length - 1) 0
        · rw [if_pos hc] at h
          have hi := List.mem_singleton.mp h
          subst hi
          exact Or.inr ⟨List.length_pos.mp hc.1, rfl, hc.2⟩
        · rw [if_neg hc] at h
          exact absurd h (List.not_mem_nil _)
    · rintro (⟨h1, h2, h3, h4, h5⟩ | ⟨h1, h2, h3⟩)
      · exact Or.inl ⟨⟨h1, by omega⟩, ⟨h3, h4⟩, h5⟩
      · subst h2
        refine Or.inr ?_
        rw [if_pos ⟨List.length_pos.mpr h1, h3⟩]
        exact List.mem_singleton.mpr rfl
  · norm_num [detect_peaks, List.range', List.filter, List.getD]

set_option maxHeartbeats 1600000 in
/-- C1 counterexample: on the sarcasm path the returned distribution
sums to 1.1, outside the 0.01 tolerance around 1.0. -/
theorem distribution_sum_cx :
    sumVals (classify_emotion "Yeah great job... not.".toList [] none) =
      11 / 10 ∧
    ¬ |sumVals (classify_emotion "Yeah great job... not.".toList [] none)
        - 1| ≤ 1 / 100 := by
  have h : hasEmotionSignal "Yeah great job... not.".toList =
      (false, "no_signal") := by decide
  have hs : sarcasmMatch (strLower "Yeah great job... not.".toList) =
      true := by decide
  have hcls : classify_emotion "Yeah great job... not.".toList [] none =
      sarcasmDist := by
    simp +decide only [classify_emotion, h, hs, if_true, if_false]
  have hsum : sumVals sarcasmDist = 11 / 10 := by
    norm_num +decide [sarcasmDist, mkConstDist, EMOTIONSstr, setKey, sumVals]
  rw [hcls, hsum]
  refine ⟨rfl, ?_⟩
  rw [show (11 : ℚ) / 10 - 1 = 1 / 10 by norm_num,
    abs_of_pos (by norm_num : (0 : ℚ) < 1 / 10)]
  norm_num

set_option maxHeartbeats 1600000 in
/-- C1 amended: for every text, history and classifier-oracle outcome,
classify_emotion returns a distribution over exactly the fixed 10
labels; its values sum to exactly 1 on the keyword, classifier and
fallback paths, and to 1.1 on the sarcasm path. -/
theorem classify_distribution_contract (text : List Char)
    (hist : List (String × String)) (resp : Option String) :
    (classify_emotion text hist resp).map Prod.fst = EMOTIONSstr ∧
    (sumVals (classify_emotion text hist resp) = 1 ∨
      sumVals (classify_emotion text hist resp) = 11 / 10) := by
  rcases hsig : hasEmotionSignal text with ⟨b, s⟩
  simp only [classify_emotion, hsig]
  split_ifs with h1 h2
  · have hmem : s ∈ EMOTIONSstr := by
      have hc := h1.2
      simpa using hc
    fin_cases hmem <;>
      refine ⟨?_, Or.inl ?_⟩ <;>
        norm_num +decide [keywordDist, keywordBaseDist, mkConstDist,
          EMOTIONSstr, setKey, normalizeDist, sumVals, List.map_cons,
          List.map_nil]
  · refine ⟨?_, Or.inr ?_⟩ <;>
      norm_num +decide [sarcasmDist, mkConstDist, EMOTIONSstr, setKey,
        sumVals, List.map_cons, List.map_nil]
  · cases resp with
    | some r =>
      obtain ⟨hk, hsum⟩ := parse_keys_sum (pyStrip r.toList)
      exact ⟨(correction_keys _).trans hk,
        Or.inl (correction_sum _ hk hsum)⟩
    | none =>
      unfold fallbackDist
      split_ifs
      · refine ⟨?_, Or.inl ?_⟩ <;>
          norm_num +decide [mkConstDist, EMOTIONSstr, sumVals,
            List.map_cons, List.map_nil]
      · refine ⟨?_, Or.inl ?_⟩ <;>
          norm_num +decide [EMOTIONSstr, sumVals, List.map_cons,
            List.map_nil]

/-- C2 counterexample: the text "made" is reported as an anger keyword
match (keyword "mad" matches with no word boundary required at its end),
although no anger keyword occurs in "made" as a whole word. -/
theorem keyword_whole_word_cx :
    hasEmotionSignal "made".toList = (true, "anger") ∧
    ∀ kw ∈ (EMOTION_KEYWORDS.lookup "anger").getD [],
      wholeWordSearch kw.toList none (strLower "made".toList) = false := by
  constructor
  · decide
  · decide

/-- C2 amended: a keyword is reported as a match exactly when it occurs
at a position preceded by a word boundary; the occurrence need not end
at a word boundary, so a super-word extending the keyword on the right
still matches. -/
theorem keyword_match_iff_start_boundary (kw cs : List Char)
    (hkw : optWord kw.head? = true) :
    sigSearch kw none cs = true ↔
      ∃ pre post, cs = pre ++ kw ++ post ∧
        boundaryOk pre.getLast? = true := by
  rw [sigSearch_iff_gen kw hkw cs none]
  constructor
  · rintro ⟨pre, post, hsplit, hbd⟩
    exact ⟨pre, post, hsplit, by rwa [lastOr_none] at hbd⟩
  · rintro ⟨pre, post, hsplit, hbd⟩
    exact ⟨pre, post, hsplit, by rwa [lastOr_none]⟩

/-- Witness for the amended C2 at keyword "mad" and text "made". -/
theorem keyword_match_iff_start_boundary_witness :
    optWord ("mad".toList.head?) = true ∧
    (sigSearch "mad".toList none "made".toList = true ↔
      ∃ pre post, "made".toList = pre ++ "mad".toList ++ post ∧
        boundaryOk pre.getLast? = true) :=
  ⟨by decide, keyword_match_iff_start_boundary "mad".toList "made".toList
    (by decide)⟩

/-- C3 counterexample: "happy but sad" contains the joy keyword "happy"
(even as a whole word), but the classifier's dominant label is sadness
— the priority scan finds "sad" first — and joy gets probability 1/50,
well below 0.5. -/
theorem keyword_dominance_cx :
    "happy" ∈ (EMOTION_KEYWORDS.lookup "joy").getD [] ∧
    wholeWordSearch "happy".toList none
      (strLower "happy but sad".toList) = true ∧
    argmaxKey (classify_emotion "happy but sad".toList [] none) = "sadness" ∧
    getD (classify_emotion "happy but sad".toList [] none) "joy" = 1 / 50 ∧
    ¬ ((1 : ℚ) / 2 ≤ 1 / 50) := by
  have h : hasEmotionSignal "happy but sad".toList = (true, "sadness") := by
    decide
  have hcls : classify_emotion "happy but sad".toList [] none =
      keywordDist "sadness" := by
    simp +decide only [classify_emotion, h, if_true, if_false]
  have hkd : keywordDist "sadness" =
      [("joy", 1/50), ("sadness", 4/5), ("anger", 1/50), ("fear", 1/20),
       ("surprise", 1/50), ("stress", 1/50), ("tension", 1/50),
       ("disgust", 1/50), ("anticipation", 1/50), ("neutral", 1/100)] := by
    simp +decide only [keywordDist, keywordBaseDist, mkConstDist, EMOTIONSstr,
      setKey, normalizeDist, sumVals, List.map_cons, List.map_nil]
    norm_num
  refine ⟨by decide, by decide, ?_, ?_, by norm_num⟩
  · rw [hcls, hkd]
    norm_num [argmaxKey, maxPair]
  · rw [hcls, hkd]
    norm_num [getD_cons, getD_nil]

/-- C3 amended: when the Signal Detector reports a specific emotion E
(the first match in the priority scan), the returned distribution's
dominant label is E with probability at least 0.5, independently of the
classifier oracle. -/
theorem keyword_signal_dominance (text : List Char)
    (hist : List (String × String)) (resp : Option String) (E : String)
    (hE : E ∈ emotionPriority)
    (h : hasEmotionSignal text = (true, E)) :
    argmaxKey (classify_emotion text hist resp) = E ∧
    (1 : ℚ) / 2 ≤ getD (classify_emotion text hist resp) E := by
  fin_cases hE <;>
    norm_num +decide [classify_emotion, h, keywordDist, keywordBaseDist,
      mkConstDist, EMOTIONSstr, setKey, normalizeDist, sumVals, argmaxKey,
      maxPair, getD_cons, getD_nil]

/-- Witness for the amended C3 at the text "furious". -/
theorem keyword_signal_dominance_witness :
    "anger" ∈ emotionPriority ∧
    hasEmotionSignal "furious".toList = (true, "anger") ∧
    (argmaxKey (classify_emotion "furious".toList [] none) = "anger" ∧
      (1 : ℚ) / 2 ≤ getD (classify_emotion "furious".toList [] none) "anger") :=
  ⟨by decide, by decide,
    keyword_signal_dominance "furious".toList [] none "anger" (by decide)
      (by decide)⟩

/-- C4 counterexample: for the disgust text "gross", the code assigns
anger the value 0.12 (replacing the 0.02 base, total 1.07, so 12/107
after normalization), while the claim's add-on-top reading gives
0.14/1.09 = 14/109; the two differ. -/
theorem keyword_boost_cx :
    hasEmotionSignal "gross".toList = (true, "disgust") ∧
    getD (classify_emotion "gross".toList [] none) "anger" = 12 / 107 ∧
    getD (specKeywordAddDist "disgust") "anger" = 14 / 109 ∧
    ((12 : ℚ) / 107) ≠ 14 / 109 := by
  have h : hasEmotionSignal "gross".toList = (true, "disgust") := by decide
  refine ⟨h, ?_, ?_, by norm_num⟩
  · norm_num +decide [classify_emotion, h, keywordDist, keywordBaseDist,
      mkConstDist, EMOTIONSstr, setKey, normalizeDist, sumVals, getD_cons,
      getD_nil]
  · norm_num +decide [specKeywordAddDist, mkConstDist, EMOTIONSstr, setKey,
      normalizeDist, sumVals, getD_cons, getD_nil]

set_option maxHeartbeats 1600000 in
/-- C4 amended: on the keyword path the secondary boost REPLACES the
0.02 base (anger ↦ 0.12 when L = disgust, disgust ↦ 0.08 when L = anger,
fear ↦ 0.05 when L = sadness) before renormalization; every label's
value equals the closed form keywordClosedForm. -/
theorem keyword_boost_replaces_base (text : List Char)
    (hist : List (String × String)) (resp : Option String) (L : String)
    (hL : L ∈ emotionPriority)
    (h : hasEmotionSignal text = (true, L)) :
    ∀ k ∈ EMOTIONSstr,
      getD (classify_emotion text hist resp) k = keywordClosedForm L k := by
  have hcls : classify_emotion text hist resp = keywordDist L := by
    fin_cases hL <;> simp +decide only [classify_emotion, h, if_true, if_false]
  simp only [hcls]
  intro k hk
  fin_cases hL <;> fin_cases hk <;>
    norm_num +decide [keywordDist, keywordBaseDist, mkConstDist, EMOTIONSstr,
      setKey, normalizeDist, sumVals, getD_cons, getD_nil, keywordClosedForm]

/-- Witness for the amended C4 at the text "gross". -/
theorem keyword_boost_replaces_base_witness :
    "disgust" ∈ emotionPriority ∧
    hasEmotionSignal "gross".toList = (true, "disgust") ∧
    ∀ k ∈ EMOTIONSstr,
      getD (classify_emotion "gross".toList [] none) k =
        keywordClosedForm "disgust" k :=
  ⟨by decide, by decide,
    keyword_boost_replaces_base "gross".toList [] none "disgust" (by decide)
      (by decide)⟩

set_option maxRecDepth 4096 in
/-- C5: when neither the keyword stage nor the emoji stage matches and
a sarcasm pattern matches, classify_emotion returns the fixed sarcasm
distribution (anger 0.5, disgust 0.2, neutral 0.05, every other label
0.05), whose dominant label is anger. -/
theorem sarcasm_path (text : List Char) (hist : List (String × String))
    (resp : Option String)
    (hk : keywordSignal (strLower text) = none)
    (he : emojiSignal text = none)
    (hs : sarcasmMatch (strLower text) = true) :
    classify_emotion text hist resp = sarcasmDist ∧
    sarcasmDist =
      [("joy", 0.05), ("sadness", 0.05), ("anger", 0.5), ("fear", 0.05),
       ("surprise", 0.05), ("stress", 0.05), ("tension", 0.05),
       ("disgust", 0.2), ("anticipation", 0.05), ("neutral", 0.05)] ∧
    argmaxKey sarcasmDist = "anger" := by
  refine ⟨?_, ?_, ?_⟩
  · unfold classify_emotion hasEmotionSignal
    rw [hk, he]
    by_cases hemp : emphasisSignal text
    · simp +decide only [hemp, if_true, if_false, hs]
    · simp +decide only [hemp, if_true, if_false, hs]
  · simp +decide only [sarcasmDist, mkConstDist, EMOTIONSstr, setKey,
      List.map_cons, List.map_nil]
    norm_num
  · norm_num +decide [sarcasmDist, mkConstDist, EMOTIONSstr, setKey,
      argmaxKey, maxPair]

/-- Witness for C5 at the text "Yeah great job... not.". -/
theorem sarcasm_path_witness :
    keywordSignal (strLower "Yeah great job... not.".toList) = none ∧
    emojiSignal "Yeah great job... not.".toList = none ∧
    sarcasmMatch (strLower "Yeah great job... not.".toList) = true ∧
    (classify_emotion "Yeah great job... not.".toList [] none = sarcasmDist ∧
      sarcasmDist =
        [("joy", 0.05), ("sadness", 0.05), ("anger", 0.5), ("fear", 0.05),
         ("surprise", 0.05), ("stress", 0.05), ("tension", 0.05),
         ("disgust", 0.2), ("anticipation", 0.05), ("neutral", 0.05)] ∧
      argmaxKey sarcasmDist = "anger") :=
  ⟨by decide, by decide, by decide,
    sarcasm_path "Yeah great job... not.".toList [] none (by decide)
      (by decide) (by decide)⟩

/-- C8 counterexample: two messages with dominants [anger, sadness] tie
1-1; the code reports anger (order of first occurrence), while the
claim's fixed-priority tie-break yields sadness (sadness precedes anger
in the label enumeration). -/
theorem dominant_tiebreak_cx :
    (((addMessage (createChat "c1" "u1" "t0" none) "user" "m1"
          (mkConstDist (1 / 10)) "anger" (1 / 2) "medium" "t1").bind
        fun c => addMessage c "user" "m2" (mkConstDist (1 / 10)) "sadness"
          (1 / 2) "medium" "t2").map
      (fun c => c.metadata.dominant_emotion)) = some "anger" ∧
    specDominantPriority ["anger", "sadness"] = "sadness" ∧
    "anger" ≠ "sadness" :=
  ⟨by decide, by decide, by decide⟩

/-- C8 amended: after every message append the dominant-emotion field
is recomputed over all messages so far as a majority label — it occurs
among the messages' dominant labels and its occurrence count is
maximal; ties are broken by order of first occurrence among the
dominants, not by the fixed label priority.  The scenario
[anger, anger, sadness] yields anger. -/
theorem dominant_majority :
    (∀ (chat : Chat) (sp tx : String) (probs : Dist) (dom : String)
        (ent : ℚ) (conf now : String) (chat' : Chat),
      addMessage chat sp tx probs dom ent conf now = some chat' →
      chat'.metadata.dominant_emotion ∈
        chat'.messages.map Message.dominant ∧
      ∀ e, (chat'.messages.map Message.dominant).count e ≤
        (chat'.messages.map Message.dominant).count
          chat'.metadata.dominant_emotion) ∧
    ((((addMessage (createChat "c1" "u1" "t0" none) "user" "m1"
          (mkConstDist (1 / 10)) "anger" (1 / 2) "medium" "t1").bind
        fun c => addMessage c "user" "m2" (mkConstDist (1 / 10)) "anger"
          (1 / 2) "medium" "t2").bind
        fun c => addMessage c "user" "m3" (mkConstDist (1 / 10)) "sadness"
          (1 / 2) "medium" "t3").map
      (fun c => c.metadata.dominant_emotion)) = some "anger" := by
  constructor
  · intro chat sp tx probs dom ent conf now chat' h
    unfold addMessage at h
    by_cases hall :
        probs.all (fun p => (chat.emotionTimeline.lookup p.1).isSome) = true
    swap
    · rw [if_neg hall] at h
      cases h
    · rw [if_pos hall] at h
      injection h with h
      subst h
      by_cases hcond : sp = "user" ∧ chat.messages.length + 1 = 1
      · rw [if_pos hcond]
        dsimp only
        rw [update_dominant_messages]
        dsimp only
        exact dominant_after_update _ (by simp)
      · rw [if_neg hcond]
        rw [update_dominant_messages]
        dsimp only
        exact dominant_after_update _ (by simp)
  · decide

/-- C9: for an existing chat with no messages, the emotion summary has
confidence exactly 0, dominant emotion neutral, the placeholder score
0.1 for every one of the 10 labels, and the fixed text
"No messages yet." when summary text is requested. -/
theorem empty_chat_summary (chat : Chat) (now : String)
    (h : chat.messages = []) :
    getEmotionSummary chat true now =
      { chatId := chat.metadata.chatId, dominant_emotion := "neutral",
        scores := mkConstDist 0.1, confidence := 0,
        summary_text := some "No messages yet.", generatedAt := now } := by
  unfold getEmotionSummary
  rw [if_pos (by simp [h])]
  simp

/-- Witness for C9 at a freshly created chat. -/
theorem empty_chat_summary_witness :
    (createChat "c1" "u1" "t0" none).messages = [] ∧
    getEmotionSummary (createChat "c1" "u1" "t0" none) true "t1" =
      { chatId := "c1", dominant_emotion := "neutral",
        scores := mkConstDist 0.1, confidence := 0,
        summary_text := some "No messages yet.", generatedAt := "t1" } :=
  ⟨rfl, empty_chat_summary (createChat "c1" "u1" "t0" none) "t1" rfl⟩

/-- C10: after create_chat, and preserved by every add_message whose
probs keys cover exactly the 10 fixed labels, each of the 10 per-emotion
timeline lists has length equal to the number of stored messages, which
also equals the messageCount field. -/
theorem timeline_length_invariant :
    (∀ (chat_id user_id created_at : String) (im : Option String),
      timelineOK (createChat chat_id user_id created_at im)) ∧
    (∀ (chat : Chat) (sp tx : String) (probs : Dist) (dom : String)
        (ent : ℚ) (conf now : String) (chat' : Chat),
      timelineOK chat → List.Perm (probs.map Prod.fst) EMOTIONSstr →
      addMessage chat sp tx probs dom ent conf now = some chat' →
      timelineOK chat') := by
  constructor
  · intro cid uid ts im
    refine ⟨?_, ?_, rfl⟩
    · simp [createChat, List.map_map]
      rfl
    · intro p hp
      simp only [createChat] at hp
      obtain ⟨e, he, rfl⟩ := List.mem_map.mp hp
      rfl
  · intro chat sp tx probs dom ent conf now chat' hok hperm h
    have hcnt1 : ∀ k ∈ EMOTIONSstr, EMOTIONSstr.count k = 1 := by decide
    unfold addMessage at h
    by_cases hall :
        probs.all (fun p => (chat.emotionTimeline.lookup p.1).isSome) = true
    swap
    · rw [if_neg hall] at h
      cases h
    · rw [if_pos hall] at h
      injection h with h
      subst h
      have hcore : ∀ c2 : Chat,
          c2.emotionTimeline = appendTimeline chat.emotionTimeline probs →
          c2.messages = chat.messages ++
            [Message.mk (chat.messages.length + 1) sp tx now probs dom ent
              conf] →
          c2.metadata.messageCount = chat.messages.length + 1 →
          timelineOK c2 := by
        intro c2 htl hmsg hcount
        refine ⟨?_, ?_, ?_⟩
        · rw [htl, appendTimeline_keys]
          exact hok.1
        · intro p hp
          rw [htl] at hp
          obtain ⟨q0, hq0, hkey, hlen⟩ := appendTimeline_entry probs _ p hp
          have hq0k : q0.1 ∈ EMOTIONSstr := by
            rw [← hok.1]
            exact List.mem_map_of_mem Prod.fst hq0
          have hone : (probs.map Prod.fst).count q0.1 = 1 := by
            rw [hperm.count_eq]
            exact hcnt1 q0.1 hq0k
          rw [hlen, hone, hok.2.1 q0 hq0, hmsg]
          simp
        · rw [hcount, hmsg]
          simp
      by_cases hcond : sp = "user" ∧ chat.messages.length + 1 = 1
      · rw [if_pos hcond]
        refine hcore _ ?_ ?_ ?_
        · rw [update_dominant_timeline]
        · rw [update_dominant_messages]
        · rw [update_dominant_count]
          simp
      · rw [if_neg hcond]
        refine hcore _ ?_ ?_ ?_
        · rw [update_dominant_timeline]
        · rw [update_dominant_messages]
        · rw [update_dominant_count]
          simp

/-- A concrete chat for the storage witnesses. -/
def chatA : Chat := createChat "c1" "u1" "t0" none

/-- The chat after one message append. -/
def chatB : Chat :=
  (addMessage chatA "user" "m1" (mkConstDist (1 / 10)) "anger" (1 / 2)
    "medium" "t1").getD chatA

/-- Witness for the amended C8 at a one-message chat. -/
theorem dominant_majority_witness :
    addMessage chatA "user" "m1" (mkConstDist (1 / 10)) "anger" (1 / 2)
      "medium" "t1" = some chatB ∧
    (chatB.metadata.dominant_emotion ∈
        chatB.messages.map Message.dominant ∧
      ∀ e, (chatB.messages.map Message.dominant).count e ≤
        (chatB.messages.map Message.dominant).count
          chatB.metadata.dominant_emotion) :=
  ⟨rfl, dominant_majority.1 chatA "user" "m1" (mkConstDist (1 / 10)) "anger"
    (1 / 2) "medium" "t1" chatB rfl⟩

/-- Witness for C10 along the chain create_chat → add_message. -/
theorem timeline_length_invariant_witness :
    timelineOK chatA ∧
    List.Perm ((mkConstDist (1 / 10)).map Prod.fst) EMOTIONSstr ∧
    addMessage chatA "user" "m1" (mkConstDist (1 / 10)) "anger" (1 / 2)
      "medium" "t1" = some chatB ∧
    timelineOK chatB :=
  ⟨timeline_length_invariant.1 "c1" "u1" "t0" none, by decide, rfl,
    timeline_length_invariant.2 chatA "user" "m1" (mkConstDist (1 / 10))
      "anger" (1 / 2) "medium" "t1" chatB
      (timeline_length_invariant.1 "c1" "u1" "t0" none) (by decide) rfl⟩

end Empathy
